import Mathlib

/-!
Verification of the entity-index lifecycle and callback bridging of the
`rust-gurobi` wrapper (`src/model.rs`, `src/callback.rs`).

The model state is embedded shallowly: every `Rc<Cell<i32>>` shared index
cell becomes a cell id (`Nat`) interpreted in a heap `Nat → Int`; the
`Model` struct becomes `MState`; every FFI entry point into the engine is
recorded in an event trace, with the engine's responses supplied by an
oracle (`Engine`).  Methods taking `&mut self` return the (possibly
partially mutated) state together with an `Except` result, matching the
Rust semantics where the model survives an error return.
-/

set_option maxHeartbeats 1000000

namespace RustGurobi

/-- Modelled from the spec: the crate's error enum lives in `error.rs`, which
is not part of the given sources; only the two constructors actually used by
`model.rs` / `callback.rs` are modelled.  `FromAPI` carries a message and a
numeric code (spec: the engine status code is preserved verbatim). -/
inductive Error where
  | InconsitentDims : Error
  | FromAPI : String → Int → Error
deriving DecidableEq

/-- Variable type (`VarType` in `model.rs`). -/
inductive VarType where
  | Binary : VarType
  | Continuous : VarType
  | Integer : VarType
deriving DecidableEq

/-- Constraint sense (`ConstrSense` in `model.rs`). -/
inductive ConstrSense where
  | Equal : ConstrSense
  | Greater : ConstrSense
  | Less : ConstrSense
deriving DecidableEq

/-- Events at the engine (Gurobi C API) boundary, as issued by `model.rs`.
Each constructor records one FFI call with the payload relevant to the
claims (deletion index batches, batch sizes, attribute element indices). -/
inductive ECall where
  | addVarCall : ECall
  | addVarsBulk : Nat → ECall
  | addConstrsBulk : Nat → ECall
  | delVars : List Int → ECall
  | delConstrs : List Int → ECall
  | delQConstrs : List Int → ECall
  | delSOS : List Int → ECall
  | updateModel : ECall
  | queryUpdateMode : ECall
  | getAttrElement : Int → ECall
  | setAttrElement : Int → ECall
  | getAttrList : List Int → ECall
  | setAttrList : List Int → ECall
deriving DecidableEq

/-- The engine oracle: a status for every FFI call (0 = success, mirroring
`check_apicall`), and the result of reading the `UpdateMode` parameter from
the environment (`env.get(param::UpdateMode)` in `get_update_mode`). -/
structure Engine where
  statusOf : ECall → Int
  updateModeResult : Except Error Int

/-- Pointwise heap update: the shared cell `c` now stores `v`. -/
def hupd (h : Nat → Int) (c : Nat) (v : Int) : Nat → Int :=
  fun x => if x = c then v else h x

/-- The `Model` struct of `model.rs`: the four per-kind registries hold cell
ids into the shared heap; `updatemode` is the lazily cached `Option<i32>`;
`trace` records every engine call issued so far; `nextCell` is the allocator
for fresh `Rc<Cell<i32>>` cells. -/
structure MState where
  heap : Nat → Int
  nextCell : Nat
  vars : List Nat
  constrs : List Nat
  qconstrs : List Nat
  sos : List Nat
  updatemode : Option Int
  trace : List ECall

/-- One FFI call through `check_apicall`: the call is issued (recorded in the
trace), then its status is checked; a non-zero status becomes an API error. -/
def apiCall (e : Engine) (s : MState) (c : ECall) : MState × Except Error Unit :=
  let s1 := { s with trace := s.trace ++ [c] }
  if e.statusOf c = 0 then (s1, Except.ok ())
  else (s1, Except.error (Error.FromAPI "engine error" (e.statusOf c)))

/-- Sequencing of fallible state-threading steps (the `try!` chains of
`model.rs`): on error the partially mutated state is kept, mirroring that a
failed `update` leaves the registry in its partial state. -/
def estep (r : MState × Except Error Unit) (f : MState → MState × Except Error Unit) :
    MState × Except Error Unit :=
  match r with
  | (s, Except.ok _) => f s
  | (s, Except.error er) => (s, Except.error er)

/-- The index transition of `Proxy::remove`: `orig ↦ -3 - orig`. -/
def removeIdx (i : Int) : Int := -3 - i

/-- Entity handle: a typed wrapper around a shared index cell
(`Proxy(Rc<Cell<i32>>)`); the cell id plays the role of the `Rc` pointer. -/
structure Proxy where
  cell : Nat
deriving DecidableEq

/-- Cloning a `Proxy` clones the `Rc`, i.e. yields an alias of the very same
cell (`#[derive(Clone)]` on `Proxy`). -/
def Proxy.clone (p : Proxy) : Proxy := ⟨p.cell⟩

/-- Embedding of `Proxy::index`: read the current encoded value of the shared cell. -/
def Proxy.indexIn (p : Proxy) (h : Nat → Int) : Int := h p.cell

/-- Embedding of `Proxy::set_index`: write the shared cell through this handle. -/
def Proxy.setIndexIn (p : Proxy) (h : Nat → Int) (v : Int) : Nat → Int :=
  hupd h p.cell v

/-- Embedding of `PartialEq for Proxy`: identity of the underlying cell (pointer equality
of the two `Rc<Cell<i32>>`), not equality of the stored index. -/
def proxyEq (p q : Proxy) : Bool := p.cell == q.cell

/-- Embedding of `Model::remove` / `Proxy::remove` on a handle held in state `s`: the
handle's cell is overwritten with `-3 - orig`. -/
def removeHandle (s : MState) (c : Nat) : MState :=
  { s with heap := hupd s.heap c (removeIdx (s.heap c)) }

/-- One iteration of the doomed-handle sweep inside `Model::remove_items`:
collect the recovered engine index `-3 - idx` when the cell still holds
`idx < -2`, then tombstone the cell to `-2`. -/
def sweepStep (hb : (Nat → Int) × List Int) (c : Nat) : (Nat → Int) × List Int :=
  (hupd hb.1 c (-2), if hb.1 c < -2 then hb.2 ++ [-3 - hb.1 c] else hb.2)

/-- Embedding of `Model::remove_items`: partition a kind's registry into kept handles
(index ≥ -1) and doomed ones, then sweep the doomed handles.  Returns
(final heap, kept cells, deletion batch). -/
def remove_items (h : Nat → Int) (vec : List Nat) : (Nat → Int) × List Nat × List Int :=
  let added := vec.filter (fun c => decide (-1 ≤ h c))
  let removed := vec.filter (fun c => !decide (-1 ≤ h c))
  let hb := removed.foldl sweepStep (h, [])
  (hb.1, added, hb.2)

/-- Index/cell pairs written by `Model::rearrange` for one registry:
position `i` in the sequence is written into the cell stored there. -/
def idxPairs (vec : List Nat) : List (Int × Nat) :=
  vec.enum.map (fun p => ((p.1 : Int), p.2))

/-- Perform a list of writes (value, cell) on the heap, left to right. -/
def writeAll (l : List (Int × Nat)) (h : Nat → Int) : Nat → Int :=
  l.foldl (fun h p => hupd h p.2 p.1) h

/-- Embedding of `Model::rearrange`: renumber a registry's cells to `0..len` in sequence
order (`elem.set_index(i as i32)` for each enumerated element). -/
def rearrange (h : Nat → Int) (vec : List Nat) : Nat → Int :=
  writeAll (idxPairs vec) h

/-- Embedding of `Model::update`: for each kind sweep doomed handles and, when the
deletion batch is non-empty, issue the kind's bulk-delete FFI call; then the
single `GRBupdatemodel` commit; then renumber all four kept registries and
invalidate the update-mode cache. -/
def update (e : Engine) (s : MState) : MState × Except Error Unit :=
  let rv := remove_items s.heap s.vars
  let sv := { s with heap := rv.1 }
  estep (if rv.2.2 = [] then (sv, Except.ok ()) else apiCall e sv (ECall.delVars rv.2.2)) fun sa =>
  let rc := remove_items sa.heap sa.constrs
  let sc := { sa with heap := rc.1 }
  estep (if rc.2.2 = [] then (sc, Except.ok ()) else apiCall e sc (ECall.delConstrs rc.2.2)) fun sb =>
  let rq := remove_items sb.heap sb.qconstrs
  let sq := { sb with heap := rq.1 }
  estep (if rq.2.2 = [] then (sq, Except.ok ()) else apiCall e sq (ECall.delQConstrs rq.2.2)) fun sd =>
  let rs := remove_items sd.heap sd.sos
  let ss := { sd with heap := rs.1 }
  estep (if rs.2.2 = [] then (ss, Except.ok ()) else apiCall e ss (ECall.delSOS rs.2.2)) fun sf =>
  estep (apiCall e sf ECall.updateModel) fun sg =>
  ({ sg with
      heap := rearrange (rearrange (rearrange (rearrange sg.heap rv.2.1) rc.2.1) rq.2.1) rs.2.1
      vars := rv.2.1
      constrs := rc.2.1
      qconstrs := rq.2.1
      sos := rs.2.1
      updatemode := none }, Except.ok ())

/-- Embedding of `Model::get_update_mode`: return the cached mode if present, otherwise
query the environment parameter once and cache the value. -/
def get_update_mode (e : Engine) (s : MState) : MState × Except Error Int :=
  match s.updatemode with
  | some m => (s, Except.ok m)
  | none =>
    let s1 := { s with trace := s.trace ++ [ECall.queryUpdateMode] }
    match e.updateModeResult with
    | Except.ok m => ({ s1 with updatemode := some m }, Except.ok m)
    | Except.error er => (s1, Except.error er)

/-- Column-index marshalling shared by `add_var` / `add_vars`: each
referenced constraint handle must hold a non-negative index; a negative
index is rejected with `InconsitentDims` (positional-reference contract). -/
def colIndices (hp : Nat → Int) : List Nat → Except Error (List Int)
  | [] => Except.ok []
  | c :: rest =>
    if hp c < 0 then Except.error Error.InconsitentDims
    else (colIndices hp rest).map (fun t => hp c :: t)

/-- Embedding of `Model::add_var`: validate the column arrays, marshal the column
indices, issue `GRBaddvar`, read the (cached) update mode, and append one
fresh handle whose initial cell value is the registry length when the mode
value is non-zero and `-1` otherwise. -/
def add_var (e : Engine) (s : MState) (_name : String) (_vtype : VarType)
    (_obj _lb _ub : Float) (colconstrs : List Nat) (colvals : List Float) :
    MState × Except Error Nat :=
  if colconstrs.length ≠ colvals.length then (s, Except.error Error.InconsitentDims)
  else
    match colIndices s.heap colconstrs with
    | Except.error er => (s, Except.error er)
    | Except.ok _buf =>
      match apiCall e s ECall.addVarCall with
      | (s1, Except.error er) => (s1, Except.error er)
      | (s1, Except.ok _) =>
        match get_update_mode e s1 with
        | (s2, Except.error er) => (s2, Except.error er)
        | (s2, Except.ok mode) =>
          let colNo : Int := if mode ≠ 0 then (s2.vars.length : Int) else -1
          let cid := s2.nextCell
          ({ s2 with
              heap := hupd s2.heap cid colNo
              vars := s2.vars ++ [cid]
              nextCell := cid + 1 }, Except.ok cid)

/-- Per-variable column blocks of `add_vars` (the `Zip::new((colconstrs,
colvals))` loop): per-pair length check, then per-index non-negativity. -/
def buildCols (hp : Nat → Int) : List (List Nat) → List (List Float) → Except Error (List Int)
  | [], _ => Except.ok []
  | _ :: _, [] => Except.ok []
  | cc :: ccs, cv :: cvs =>
    if cc.length ≠ cv.length then Except.error Error.InconsitentDims
    else
      match colIndices hp cc with
      | Except.error er => Except.error er
      | Except.ok ind =>
        match buildCols hp ccs cvs with
        | Except.error er => Except.error er
        | Except.ok rest => Except.ok (ind ++ rest)

/-- Embedding of `Model::add_vars`: validate that all seven parallel arrays have equal
length before anything else; marshal the column blocks; issue `GRBaddvars`;
then append `names.len()` fresh handles, each initialised from the cached
update mode exactly as in `add_var`. -/
def add_vars (e : Engine) (s : MState) (names : List String) (vtypes : List VarType)
    (objs lbs ubs : List Float) (colconstrs : List (List Nat)) (colvals : List (List Float)) :
    MState × Except Error (List Nat) :=
  if names.length ≠ vtypes.length ∨ vtypes.length ≠ objs.length ∨ objs.length ≠ lbs.length ∨
      lbs.length ≠ ubs.length ∨ ubs.length ≠ colconstrs.length ∨
      colconstrs.length ≠ colvals.length then
    (s, Except.error Error.InconsitentDims)
  else
    match buildCols s.heap colconstrs colvals with
    | Except.error er => (s, Except.error er)
    | Except.ok _ind =>
      match apiCall e s (ECall.addVarsBulk names.length) with
      | (s1, Except.error er) => (s1, Except.error er)
      | (s1, Except.ok _) =>
        match get_update_mode e s1 with
        | (s2, Except.error er) => (s2, Except.error er)
        | (s2, Except.ok mode) =>
          let xcols := s2.vars.length
          let newCells := (List.range names.length).map (fun k => s2.nextCell + k)
          let heap2 := (List.range names.length).foldl
            (fun h k =>
              hupd h (s2.nextCell + k) (if mode ≠ 0 then ((xcols + k : Nat) : Int) else -1))
            s2.heap
          ({ s2 with
              heap := heap2
              vars := s2.vars ++ newCells
              nextCell := s2.nextCell + names.length }, Except.ok newCells)

/-- Linear expression (`LinExpr` in `expr.rs`): variable handles (as cell
ids), coefficients, constant offset. -/
structure LinExpr where
  vars : List Nat
  coeff : List Float
  offset : Float

/-- The `Into<(Vec<i32>, Vec<f64>, f64)>` conversion of `LinExpr`: each
variable handle is resolved to its current index. -/
def linExprInto (hp : Nat → Int) (ex : LinExpr) : List Int × List Float × Float :=
  (ex.vars.map hp, ex.coeff, ex.offset)

/-- Embedding of `Model::add_constrs`: note there is no validation that `name`, `expr`,
`sense` and `rhs` have equal length; the zips silently truncate, the engine
call is issued with `name.len()` as the constraint count, and `name.len()`
fresh handles are appended. -/
def add_constrs (e : Engine) (s : MState) (names : List String) (expr : List LinExpr)
    (sense : List ConstrSense) (rhs : List Float) : MState × Except Error (List Nat) :=
  let exprs := expr.map (linExprInto s.heap)
  let _rhsAdj := (rhs.zip exprs).map (fun p => p.1 - p.2.2.2)
  let _senses := sense
  match apiCall e s (ECall.addConstrsBulk names.length) with
  | (s1, Except.error er) => (s1, Except.error er)
  | (s1, Except.ok _) =>
    match get_update_mode e s1 with
    | (s2, Except.error er) => (s2, Except.error er)
    | (s2, Except.ok mode) =>
      let xrows := s2.constrs.length
      let newCells := (List.range names.length).map (fun k => s2.nextCell + k)
      let heap2 := (List.range names.length).foldl
        (fun h k =>
          hupd h (s2.nextCell + k) (if mode ≠ 0 then ((xrows + k : Nat) : Int) else -1))
        s2.heap
      ({ s2 with
          heap := heap2
          constrs := s2.constrs ++ newCells
          nextCell := s2.nextCell + names.length }, Except.ok newCells)

/-- The index screen of the element-wise attribute loops (`get_list` /
`set_list`): walk the indices in order, failing at the first negative one. -/
def checkNonneg : List Int → Option (List Int)
  | [] => some []
  | i :: rest =>
    if i < 0 then none else (checkNonneg rest).map (fun t => i :: t)

/-- Embedding of `Model::get_element`: a negative element index is rejected with
`InconsitentDims` before the engine attribute call. -/
def get_element (e : Engine) (s : MState) (element : Int) : MState × Except Error Unit :=
  if element < 0 then (s, Except.error Error.InconsitentDims)
  else apiCall e s (ECall.getAttrElement element)

/-- Embedding of `Model::set_element`: negative index rejected before the engine call;
on success the implicit `self.update()` runs. -/
def set_element (e : Engine) (s : MState) (element : Int) : MState × Except Error Unit :=
  if element < 0 then (s, Except.error Error.InconsitentDims)
  else estep (apiCall e s (ECall.setAttrElement element)) (fun s1 => update e s1)

/-- Embedding of `Model::get_list` (the worker behind `get_values`): screen every index,
then issue the single engine attribute-list call. -/
def get_list (e : Engine) (s : MState) (ind : List Int) : MState × Except Error Unit :=
  match checkNonneg ind with
  | none => (s, Except.error Error.InconsitentDims)
  | some buf => apiCall e s (ECall.getAttrList buf)

/-- Embedding of `Model::set_list` (the worker behind `set_values`): the parallel length
check comes first, then the index screen, then the engine call.  The value
array is represented by its length only (attribute marshalling is external). -/
def set_list (e : Engine) (s : MState) (ind : List Int) (nvals : Nat) :
    MState × Except Error Unit :=
  if ind.length ≠ nvals then (s, Except.error Error.InconsitentDims)
  else
    match checkNonneg ind with
    | none => (s, Except.error Error.InconsitentDims)
    | some buf => apiCall e s (ECall.setAttrList buf)

/-- Embedding of `Proxy::get`: query a per-element attribute at this handle's current
index. -/
def proxy_get (e : Engine) (s : MState) (p : Proxy) : MState × Except Error Unit :=
  get_element e s (p.indexIn s.heap)

/-- Embedding of `Proxy::set`: set a per-element attribute at this handle's current
index. -/
def proxy_set (e : Engine) (s : MState) (p : Proxy) : MState × Except Error Unit :=
  set_element e s (p.indexIn s.heap)

/-- Callback location code `POLLING` of `callback.rs`. -/
def POLLING : Int := 0

/-- Callback location code `PRESOLVE`. -/
def PRESOLVE : Int := 1

/-- Callback location code `SIMPLEX`. -/
def SIMPLEX : Int := 2

/-- Callback location code `MIP`. -/
def MIP : Int := 3

/-- Callback location code `MIPSOL`. -/
def MIPSOL : Int := 4

/-- Callback location code `MIPNODE`. -/
def MIPNODE : Int := 5

/-- Callback location code `MESSAGE`. -/
def MESSAGE : Int := 6

/-- Callback location code `BARRIER`. -/
def BARRIER : Int := 7

/-- Callback query code `RUNTIME` (`6002` in `callback.rs`). -/
def RUNTIME : Int := 6002

/-- The engine oracle for `GRBcbget` inside a callback: for a (location,
what) pair, a raw status plus the value written into the output buffer, one
field per buffer type used by `callback.rs`. -/
structure CbEngine where
  getIntRaw : Int → Int → Int × Int
  getDoubleRaw : Int → Int → Int × Float
  getStringRaw : Int → Int → Int × String

/-- Embedding of `Callback::get_int`: issue `GRBcbget` and map a non-zero status to the
fixed callback error (`FromAPI "Callback error" 40000`). -/
def cb_get_int (e : CbEngine) (w what : Int) : Except Error Int :=
  match e.getIntRaw w what with
  | (0, v) => Except.ok v
  | (_, _) => Except.error (Error.FromAPI "Callback error" 40000)

/-- Embedding of `Callback::get_double`: same as `cb_get_int` with a double buffer. -/
def cb_get_double (e : CbEngine) (w what : Int) : Except Error Float :=
  match e.getDoubleRaw w what with
  | (0, v) => Except.ok v
  | (_, _) => Except.error (Error.FromAPI "Callback error" 40000)

/-- Embedding of `Callback::get_string`: same as `cb_get_int` with a string buffer. -/
def cb_get_string (e : CbEngine) (w what : Int) : Except Error String :=
  match e.getStringRaw w what with
  | (0, v) => Except.ok v
  | (_, _) => Except.error (Error.FromAPI "Callback error" 40000)

/-- The `Where` context union of `callback.rs`, one variant per engine
callback location, carrying exactly the fields queried for that location. -/
inductive Where where
  | Polling : Where
  | PreSolve : (coldel rowdel senchg bndchg coecfg : Int) → Where
  | Simplex : (itrcnt objval priminf dualinf : Float) → (ispert : Int) → Where
  | MIP : (objbst objbnd nodcnt solcnt : Float) → (cutcnt : Int) →
      (nodleft itrcnt : Float) → Where
  | MIPSol : (obj objbst objbnd nodcnt solcnt : Float) → Where
  | MIPNode : (status : Int) → (objbst objbnd nodcnt : Float) → (solcnt : Int) → Where
  | Message : String → Where
  | Barrier : (itrcnt : Int) → (primobj dualobj priminf dualinf cmpl : Float) → Where

/-- The `Into<i32>` conversion of `Where`: back to the raw location code. -/
def whereCode : Where → Int
  | Where.Polling => POLLING
  | Where.PreSolve _ _ _ _ _ => PRESOLVE
  | Where.Simplex _ _ _ _ _ => SIMPLEX
  | Where.MIP _ _ _ _ _ _ _ => MIP
  | Where.MIPSol _ _ _ _ _ => MIPSOL
  | Where.MIPNode _ _ _ _ _ => MIPNODE
  | Where.Message _ => MESSAGE
  | Where.Barrier _ _ _ _ _ _ => BARRIER

/-- The valid engine-reported callback locations.  The engine contract only
ever passes one of these eight codes to the registered trampoline (the Rust
`Callback::new` aborts the process on anything else). -/
inductive Loc where
  | polling : Loc
  | presolve : Loc
  | simplex : Loc
  | mip : Loc
  | mipsol : Loc
  | mipnode : Loc
  | message : Loc
  | barrier : Loc
deriving DecidableEq

/-- Embedding of `Callback::new`: build the typed context for the reported location by
issuing the fixed per-location sequence of `GRBcbget` queries; the first
failing query aborts construction. -/
def cbNew (e : CbEngine) (loc : Loc) : Except Error Where :=
  match loc with
  | Loc.polling => Except.ok Where.Polling
  | Loc.presolve => do
    let coldel ← cb_get_int e PRESOLVE 1000
    let rowdel ← cb_get_int e PRESOLVE 1001
    let senchg ← cb_get_int e PRESOLVE 1002
    let bndchg ← cb_get_int e PRESOLVE 1003
    let coecfg ← cb_get_int e PRESOLVE 1004
    Except.ok (Where.PreSolve coldel rowdel senchg bndchg coecfg)
  | Loc.simplex => do
    let itrcnt ← cb_get_double e SIMPLEX 2000
    let objval ← cb_get_double e SIMPLEX 2001
    let priminf ← cb_get_double e SIMPLEX 2002
    let dualinf ← cb_get_double e SIMPLEX 2003
    let ispert ← cb_get_int e SIMPLEX 2004
    Except.ok (Where.Simplex itrcnt objval priminf dualinf ispert)
  | Loc.mip => do
    let objbst ← cb_get_double e MIP 3000
    let objbnd ← cb_get_double e MIP 3001
    let nodcnt ← cb_get_double e MIP 3002
    let solcnt ← cb_get_double e MIP 3003
    let cutcnt ← cb_get_int e MIP 3004
    let nodleft ← cb_get_double e MIP 3005
    let itrcnt ← cb_get_double e MIP 3006
    Except.ok (Where.MIP objbst objbnd nodcnt solcnt cutcnt nodleft itrcnt)
  | Loc.mipsol => do
    let obj ← cb_get_double e MIPSOL 4002
    let objbst ← cb_get_double e MIPSOL 4003
    let objbnd ← cb_get_double e MIPSOL 4004
    let nodcnt ← cb_get_double e MIPSOL 4005
    let solcnt ← cb_get_double e MIPSOL 4006
    Except.ok (Where.MIPSol obj objbst objbnd nodcnt solcnt)
  | Loc.mipnode => do
    let status ← cb_get_int e MIPNODE 5001
    let objbst ← cb_get_double e MIPNODE 5003
    let objbnd ← cb_get_double e MIPNODE 5004
    let nodcnt ← cb_get_double e MIPNODE 5005
    let solcnt ← cb_get_int e MIPNODE 5006
    Except.ok (Where.MIPNode status objbst objbnd nodcnt solcnt)
  | Loc.message => do
    let msg ← cb_get_string e MESSAGE 6001
    Except.ok (Where.Message msg.trim)
  | Loc.barrier => do
    let itrcnt ← cb_get_int e BARRIER 7001
    let primobj ← cb_get_double e BARRIER 7002
    let dualobj ← cb_get_double e BARRIER 7003
    let priminf ← cb_get_double e BARRIER 7004
    let dualinf ← cb_get_double e BARRIER 7005
    let cmpl ← cb_get_double e BARRIER 7006
    Except.ok (Where.Barrier itrcnt primobj dualobj priminf dualinf cmpl)

/-- Outcome of running the host closure on a context: a normal `Ok` return,
a normal `Err` return, or an abnormal termination (a Rust panic). -/
inductive HostResult where
  | ok : HostResult
  | err : HostResult
  | panicked : HostResult
deriving DecidableEq

/-- The `catch_unwind(AssertUnwindSafe(..))` block of `callback_wrapper`:
the closure maps the host's `Result` to `0` / `-1`; an abnormal termination
escapes as the `Err` arm of `catch_unwind` instead of unwinding further. -/
def hostRun (host : Where → HostResult) (w : Where) : Except Unit Int :=
  match host w with
  | HostResult.ok => Except.ok 0
  | HostResult.err => Except.ok (-1)
  | HostResult.panicked => Except.error ()

/-- The status code `callback_wrapper` reports for each host outcome. -/
def hostStatus : HostResult → Int
  | HostResult.ok => 0
  | HostResult.err => -1
  | HostResult.panicked => -3000

/-- The native callback trampoline `callback_wrapper` of `model.rs`: build
the context (returning `-3` to the engine when construction fails, without
running the host closure), otherwise run the host closure under
`catch_unwind` and map the outcome to a status.  The second component
records whether the host closure was invoked. -/
def callback_wrapper (e : CbEngine) (loc : Loc) (host : Where → HostResult) : Int × Bool :=
  match cbNew e loc with
  | Except.error _ => (-3, false)
  | Except.ok ctx =>
    match hostRun host ctx with
    | Except.ok ret => (ret, true)
    | Except.error _ => (-3000, true)

/-- Forwarded branch of `Callback::get_runtime`: the query
`get_double(where, RUNTIME)` issued to the engine.  The second component
lists the `GRBcbget` calls issued.  The non-forwarding branch (rejection
with the fixed `FromAPI "bad call in callback" 40001` error when the
context is `Polling`) lives in `get_runtime` below. -/
def runtimeFwd (e : CbEngine) (q : Int) : Except Error Float × List (Int × Int) :=
  match e.getDoubleRaw q RUNTIME with
  | (0, v) => (Except.ok v, [(q, RUNTIME)])
  | (_, _) => (Except.error (Error.FromAPI "Callback error" 40000), [(q, RUNTIME)])

/-- Dispatch of `Callback::get_runtime` on the context location. -/
def get_runtime (e : CbEngine) (w : Where) : Except Error Float × List (Int × Int) :=
  match w with
  | Where.Polling => (Except.error (Error.FromAPI "bad call in callback" 40001), [])
  | _ => runtimeFwd e (whereCode w)

/-- An engine that accepts every call with status 0 and reports update-mode
parameter value 0 (the mode under which fresh handles start at `-1`, as in
the library's own test `removing_variable_should_be_successed`). -/
def eOk : Engine := ⟨fun _ => 0, Except.ok 0⟩

/-- The empty model: no entities, no cached update mode, empty trace
(`Model::new` on a fresh environment followed by `populate` over zero
counts). -/
def mState0 : MState :=
  { heap := fun _ => 0
    nextCell := 0
    vars := []
    constrs := []
    qconstrs := []
    sos := []
    updatemode := none
    trace := [] }

/-- Is an `Except` result a success? -/
def isOkB : Except Error α → Bool
  | Except.ok _ => true
  | Except.error _ => false

/-- Project the success value of an `Except` result. -/
def exOk : Except Error α → Option α
  | Except.ok a => some a
  | Except.error _ => none

/-- Is an engine call a variable-delete (`GRBdelvars`) invocation? -/
def isDelVars : ECall → Bool
  | ECall.delVars _ => true
  | _ => false

/-- Scenario step 1: add variable `x` to the empty model. -/
def scenA : MState × Except Error Nat :=
  add_var eOk mState0 "x" VarType.Binary 0.0 0.0 1.0 [] []

/-- Scenario step 2: add variable `y`. -/
def scenB : MState × Except Error Nat :=
  add_var eOk scenA.1 "y" VarType.Binary 0.0 0.0 1.0 [] []

/-- Scenario step 3: first `update()`. -/
def scenC : MState × Except Error Unit := update eOk scenB.1

/-- Scenario step 4: add variable `z`. -/
def scenD : MState × Except Error Nat :=
  add_var eOk scenC.1 "z" VarType.Binary 0.0 0.0 1.0 [] []

/-- Scenario step 5: `model.remove(y)` — `y` holds cell 1. -/
def scenE : MState := removeHandle scenD.1 1

/-- Scenario step 6: second `update()`. -/
def scenF : MState × Except Error Unit := update eOk scenE

/-- The all-zero `LinExpr` (no terms, zero offset). -/
def linZero : LinExpr := ⟨[], [], 0.0⟩

/-- A callback engine whose every raw query succeeds with zero values. -/
def eCbOk : CbEngine := ⟨fun _ _ => (0, 0), fun _ _ => (0, 1.5), fun _ _ => (0, "log")⟩

/-- A callback engine whose every raw query fails with status 1. -/
def eCbFail : CbEngine := ⟨fun _ _ => (1, 0), fun _ _ => (1, 0.0), fun _ _ => (1, "")⟩

/-- The full write list of the renumbering pass of `update`: positions of
all four registries in order (vars, constrs, qconstrs, sos). -/
def chainPairs (s : MState) : List (Int × Nat) :=
  idxPairs s.vars ++ idxPairs s.constrs ++ idxPairs s.qconstrs ++ idxPairs s.sos

/-- A model state is renumbered when its heap is a fixed point of the
renumbering pass over its own registries — the shape every state has right
after a successful `update`. -/
def Canon (s : MState) : Prop :=
  ∀ x, writeAll (chainPairs s) s.heap x = s.heap x

/-- A model state with two variables, the first of which (cell 0) is a
pending add (`-1`) while the second (cell 1) is live at index 0. -/
def sC3 : MState :=
  { heap := fun x => if x = 0 then -1 else 0
    nextCell := 2
    vars := [0, 1]
    constrs := []
    qconstrs := []
    sos := []
    updatemode := none
    trace := [] }

/-- A model state whose sole cell is a post-reconciliation tombstone. -/
def sTomb : MState := { mState0 with heap := fun _ => -2 }

theorem hupd_same (h : Nat → Int) (c : Nat) (v : Int) : hupd h c v c = v := by
  simp [hupd]

theorem hupd_other (h : Nat → Int) (c x : Nat) (v : Int) (hx : x ≠ c) :
    hupd h c v x = h x := by
  simp [hupd, hx]

theorem hupd_noop (h : Nat → Int) (c : Nat) (v : Int) (hv : h c = v) :
    hupd h c v = h := by
  funext x
  by_cases hx : x = c
  · subst hx; simp [hupd, hv]
  · simp [hupd, hx]

theorem writeAll_cons (p : Int × Nat) (l : List (Int × Nat)) (h : Nat → Int) :
    writeAll (p :: l) h = writeAll l (hupd h p.2 p.1) := rfl

theorem writeAll_append (l1 l2 : List (Int × Nat)) (h : Nat → Int) :
    writeAll (l1 ++ l2) h = writeAll l2 (writeAll l1 h) := by
  simp [writeAll, List.foldl_append]

theorem writeAll_not_mem (l : List (Int × Nat)) (h : Nat → Int) (x : Nat)
    (hx : x ∉ l.map Prod.snd) : writeAll l h x = h x := by
  induction l generalizing h with
  | nil => rfl
  | cons p t ih =>
    simp only [List.map_cons, List.mem_cons, not_or] at hx
    rw [writeAll_cons, ih _ hx.2, hupd_other _ _ _ _ hx.1]

theorem writeAll_congr_mem (l : List (Int × Nat)) (x : Nat)
    (hx : x ∈ l.map Prod.snd) (h h' : Nat → Int) :
    writeAll l h x = writeAll l h' x := by
  induction l generalizing h h' with
  | nil => simp at hx
  | cons p t ih =>
    rw [writeAll_cons, writeAll_cons]
    by_cases hxt : x ∈ t.map Prod.snd
    · exact ih hxt _ _
    · have hxp : x = p.2 := by
        simp only [List.map_cons, List.mem_cons] at hx
        tauto
      rw [writeAll_not_mem _ _ _ hxt, writeAll_not_mem _ _ _ hxt]
      subst hxp
      rw [hupd_same, hupd_same]

theorem writeAll_writeAll (l : List (Int × Nat)) (h : Nat → Int) (x : Nat) :
    writeAll l (writeAll l h) x = writeAll l h x := by
  by_cases hx : x ∈ l.map Prod.snd
  · exact writeAll_congr_mem l x hx _ _
  · rw [writeAll_not_mem _ _ _ hx, writeAll_not_mem _ _ _ hx]

theorem writeAll_mem_pred (P : Int → Prop) (l : List (Int × Nat)) (h : Nat → Int)
    (x : Nat) (hP : ∀ p ∈ l, P p.1) (hx : x ∈ l.map Prod.snd) :
    P (writeAll l h x) := by
  induction l generalizing h with
  | nil => simp at hx
  | cons p t ih =>
    rw [writeAll_cons]
    by_cases hxt : x ∈ t.map Prod.snd
    · exact ih _ (fun q hq => hP q (List.mem_cons_of_mem _ hq)) hxt
    · have hxp : x = p.2 := by
        simp only [List.map_cons, List.mem_cons] at hx
        tauto
      rw [writeAll_not_mem _ _ _ hxt]
      subst hxp
      rw [hupd_same]
      exact hP p (List.mem_cons_self _ _)

theorem idxPairs_snd (vec : List Nat) : (idxPairs vec).map Prod.snd = vec := by
  simp [idxPairs, List.map_map, Function.comp_def]

theorem idxPairs_fst_nonneg (vec : List Nat) : ∀ p ∈ idxPairs vec, 0 ≤ p.1 := by
  intro p hp
  simp only [idxPairs, List.mem_map] at hp
  obtain ⟨q, _, rfl⟩ := hp
  exact Int.ofNat_nonneg q.1

theorem estep_ok_pair (s : MState) (u : Unit) (f : MState → MState × Except Error Unit) :
    estep (s, Except.ok u) f = f s := rfl

theorem estep_err_pair (s : MState) (er : Error)
    (f : MState → MState × Except Error Unit) :
    estep (s, Except.error er) f = (s, Except.error er) := rfl

theorem estep_ok_inv {r : MState × Except Error Unit}
    {f : MState → MState × Except Error Unit} {t : MState} {u : Unit}
    (h : estep r f = (t, Except.ok u)) :
    ∃ m, r = (m, Except.ok ()) ∧ f m = (t, Except.ok u) := by
  obtain ⟨m, exc⟩ := r
  cases exc with
  | ok v => exact ⟨m, rfl, h⟩
  | error er =>
    rw [estep_err_pair] at h
    injection h with h1 h2
    exact absurd h2 (fun hh => Except.noConfusion hh)

theorem sweep_all_tomb (l : List Nat) (hp : Nat → Int) (b : List Int)
    (hl : ∀ c ∈ l, hp c = -2) : l.foldl sweepStep (hp, b) = (hp, b) := by
  induction l generalizing hp b with
  | nil => rfl
  | cons c t ih =>
    have hc : hp c = -2 := hl c (List.mem_cons_self _ _)
    have hstep : sweepStep (hp, b) c = (hp, b) := by
      simp [sweepStep, hc, hupd_noop hp c (-2) hc]
    rw [List.foldl_cons, hstep]
    exact ih _ _ (fun x hx => hl x (List.mem_cons_of_mem _ hx))

theorem sweep_batch_src (S : List Nat) (hp0 : Nat → Int) (l : List Nat) :
    ∀ (hp : Nat → Int) (b : List Int),
      (∀ x, hp x = hp0 x ∨ hp x = -2) →
      (∀ i ∈ b, ∃ c, c ∈ S ∧ hp0 c < -2 ∧ i = -3 - hp0 c) →
      (∀ c ∈ l, c ∈ S) →
      ∀ i ∈ (l.foldl sweepStep (hp, b)).2, ∃ c, c ∈ S ∧ hp0 c < -2 ∧ i = -3 - hp0 c := by
  induction l with
  | nil => intro hp b _ h2 _ i hi; exact h2 i hi
  | cons c t ih =>
    intro hp b h1 h2 h3 i hi
    rw [List.foldl_cons] at hi
    refine ih _ _ ?_ ?_ (fun x hx => h3 x (List.mem_cons_of_mem _ hx)) i hi
    · intro x
      by_cases hx : x = c
      · subst hx; right; simp [sweepStep, hupd_same]
      · rcases h1 x with h | h
        · left; rw [← h]; simp [sweepStep]; rw [hupd_other _ _ _ _ hx]
        · right; rw [← h]; simp [sweepStep]; rw [hupd_other _ _ _ _ hx]
    · intro j hj
      simp only [sweepStep] at hj
      by_cases hcv : hp c < -2
      · rw [if_pos hcv] at hj
        rcases List.mem_append.mp hj with hj | hj
        · exact h2 j hj
        · have hjv : j = -3 - hp c := by simpa using hj
          have hpc : hp c = hp0 c := by
            rcases h1 c with h | h
            · exact h
            · omega
          exact ⟨c, h3 c (List.mem_cons_self _ _), by omega, by omega⟩
      · rw [if_neg hcv] at hj
        exact h2 j hj

theorem remove_items_batch_mem (hp : Nat → Int) (vec : List Nat) :
    ∀ i ∈ (remove_items hp vec).2.2, ∃ c, c ∈ vec ∧ hp c < -2 ∧ i = -3 - hp c := by
  intro i hi
  simp only [remove_items] at hi
  exact sweep_batch_src vec hp _ hp [] (fun _ => Or.inl rfl) (by simp)
    (fun c hc => (List.mem_filter.mp hc).1) i hi

theorem remove_items_tomb (hp : Nat → Int) (vec : List Nat)
    (hall : ∀ c ∈ vec, -1 ≤ hp c ∨ hp c = -2) :
    remove_items hp vec = (hp, vec.filter (fun c => decide (-1 ≤ hp c)), []) := by
  have hrem : ∀ c ∈ vec.filter (fun c => !decide (-1 ≤ hp c)), hp c = -2 := by
    intro c hc
    have hmem := List.mem_filter.mp hc
    have hlt : ¬ (-1 ≤ hp c) := by simpa using hmem.2
    rcases hall c hmem.1 with h | h
    · exact absurd h hlt
    · exact h
  simp only [remove_items]
  rw [sweep_all_tomb _ _ _ hrem]

theorem remove_items_id (hp : Nat → Int) (vec : List Nat)
    (hall : ∀ c ∈ vec, -1 ≤ hp c) :
    remove_items hp vec = (hp, vec, []) := by
  rw [remove_items_tomb hp vec (fun c hc => Or.inl (hall c hc))]
  have hfil : vec.filter (fun c => decide (-1 ≤ hp c)) = vec :=
    List.filter_eq_self.mpr (by intro a ha; simpa using hall a ha)
  rw [hfil]

theorem mem_chainPairs {s : MState} {c : Nat}
    (hc : c ∈ s.vars ∨ c ∈ s.constrs ∨ c ∈ s.qconstrs ∨ c ∈ s.sos) :
    c ∈ (chainPairs s).map Prod.snd := by
  simp only [chainPairs, List.map_append, List.mem_append, idxPairs_snd]
  tauto

theorem chainPairs_fst_nonneg (s : MState) : ∀ p ∈ chainPairs s, 0 ≤ p.1 := by
  intro p hp
  simp only [chainPairs, List.mem_append] at hp
  rcases hp with ((h | h) | h) | h <;> exact idxPairs_fst_nonneg _ p h

theorem canon_nonneg {s : MState} (hc : Canon s) {c : Nat}
    (hmem : c ∈ s.vars ∨ c ∈ s.constrs ∨ c ∈ s.qconstrs ∨ c ∈ s.sos) :
    0 ≤ s.heap c := by
  rw [← hc c]
  exact writeAll_mem_pred _ _ _ _ (chainPairs_fst_nonneg s) (mem_chainPairs hmem)

theorem canon_of_shape (m : MState) (A B C D : List Nat) :
    Canon { m with
        heap := rearrange (rearrange (rearrange (rearrange m.heap A) B) C) D
        vars := A
        constrs := B
        qconstrs := C
        sos := D
        updatemode := none } := by
  intro x
  have hH : rearrange (rearrange (rearrange (rearrange m.heap A) B) C) D
      = writeAll (idxPairs A ++ idxPairs B ++ idxPairs C ++ idxPairs D) m.heap := by
    simp [rearrange, writeAll_append]
  show writeAll (idxPairs A ++ idxPairs B ++ idxPairs C ++ idxPairs D)
      (rearrange (rearrange (rearrange (rearrange m.heap A) B) C) D) x
    = rearrange (rearrange (rearrange (rearrange m.heap A) B) C) D x
  rw [hH]
  exact writeAll_writeAll _ _ _

theorem update_ok_canon {e : Engine} {s s1 : MState}
    (h : update e s = (s1, Except.ok ())) : Canon s1 := by
  unfold update at h
  obtain ⟨m1, _, h⟩ := estep_ok_inv h
  try dsimp only at h
  obtain ⟨m2, _, h⟩ := estep_ok_inv h
  try dsimp only at h
  obtain ⟨m3, _, h⟩ := estep_ok_inv h
  try dsimp only at h
  obtain ⟨m4, _, h⟩ := estep_ok_inv h
  try dsimp only at h
  obtain ⟨m5, _, h⟩ := estep_ok_inv h
  try dsimp only at h
  rw [Prod.mk.injEq] at h
  rw [← h.1]
  exact canon_of_shape m5 _ _ _ _

theorem update_canon_next (e : Engine) (s : MState) (hc : Canon s) :
    (update e s).1.trace = s.trace ++ [ECall.updateModel] ∧
    (∀ x, (update e s).1.heap x = s.heap x) ∧
    (update e s).1.vars = s.vars ∧ (update e s).1.constrs = s.constrs ∧
    (update e s).1.qconstrs = s.qconstrs ∧ (update e s).1.sos = s.sos := by
  have hb : ∀ vec : List Nat,
      (∀ c ∈ vec, c ∈ s.vars ∨ c ∈ s.constrs ∨ c ∈ s.qconstrs ∨ c ∈ s.sos) →
      remove_items s.heap vec = (s.heap, vec, []) := by
    intro vec hvec
    exact remove_items_id _ _
      (fun c hm => le_trans (by norm_num) (canon_nonneg hc (hvec c hm)))
  have hv := hb s.vars (fun c hm => Or.inl hm)
  have hcs := hb s.constrs (fun c hm => Or.inr (Or.inl hm))
  have hq := hb s.qconstrs (fun c hm => Or.inr (Or.inr (Or.inl hm)))
  have hss := hb s.sos (fun c hm => Or.inr (Or.inr (Or.inr hm)))
  have hheap : ∀ x,
      rearrange (rearrange (rearrange (rearrange s.heap s.vars) s.constrs) s.qconstrs) s.sos x
        = s.heap x := by
    intro x
    have hH : rearrange (rearrange (rearrange (rearrange s.heap s.vars) s.constrs) s.qconstrs)
        s.sos = writeAll (chainPairs s) s.heap := by
      simp [rearrange, chainPairs, writeAll_append]
    rw [hH]
    exact hc x
  unfold update
  by_cases hst : e.statusOf ECall.updateModel = 0 <;>
    simp [estep, apiCall, hst, hheap, hv, hcs, hq, hss]

theorem checkNonneg_neg {ind : List Int} {i : Int} (hmem : i ∈ ind) (hneg : i < 0) :
    checkNonneg ind = none := by
  induction ind with
  | nil => simp at hmem
  | cons j t ih =>
    rcases List.mem_cons.mp hmem with rfl | hmem2
    · simp [checkNonneg, hneg]
    · unfold checkNonneg
      by_cases hj : j < 0
      · rw [if_pos hj]
      · rw [if_neg hj, ih hmem2]
        rfl

theorem checkNonneg_some {ind buf : List Int} (h : checkNonneg ind = some buf) :
    ∀ j ∈ ind, 0 ≤ j := by
  induction ind generalizing buf with
  | nil => simp
  | cons j t ih =>
    unfold checkNonneg at h
    by_cases hj : j < 0
    · rw [if_pos hj] at h
      exact absurd h (by simp)
    · rw [if_neg hj] at h
      intro x hx
      rcases List.mem_cons.mp hx with rfl | hx2
      · omega
      · rcases ho : checkNonneg t with _ | buf2
        · rw [ho] at h
          simp at h
        · exact ih ho x hx2

/-- C1: starting from the empty model, adding two variables returns handles
with index `-1, -1`; a successful `update()` renumbers them to `0, 1`;
adding a third variable returns index `-1`; removing the second variable's
handle sets its cell to `-4` (= `-3 - 1`); a second successful `update()`
leaves the first variable at `0`, renumbers the third to `1`, tombstones the
second's cell to `-2`, and issues the engine variable-delete primitive
exactly once, with the single index `1`. -/
theorem end_to_end_scenario :
    exOk scenA.2 = some 0 ∧ exOk scenB.2 = some 1 ∧
    scenB.1.heap 0 = -1 ∧ scenB.1.heap 1 = -1 ∧
    isOkB scenC.2 = true ∧ scenC.1.heap 0 = 0 ∧ scenC.1.heap 1 = 1 ∧
    exOk scenD.2 = some 2 ∧ scenD.1.heap 2 = -1 ∧ scenD.1.heap 0 = 0 ∧
    scenD.1.heap 1 = 1 ∧
    scenE.heap 1 = -4 ∧ scenE.trace.filter isDelVars = [] ∧
    isOkB scenF.2 = true ∧ scenF.1.heap 0 = 0 ∧ scenF.1.heap 2 = 1 ∧
    scenF.1.heap 1 = -2 ∧
    scenF.1.trace.filter isDelVars = [ECall.delVars [1]] := by
  decide

/-- C6: two handles obtained by cloning the same handle report identical
`index()` values against every heap (hence at every point of every operation
sequence, since operations only change the heap); a write through one alias
is immediately visible through every aliasing handle; and handle equality
holds exactly when the two handles share the same underlying cell,
independently of the stored index value. -/
theorem handle_alias_consistency (p q : Proxy) (hp : Nat → Int) (v : Int) :
    (Proxy.clone p).indexIn hp = p.indexIn hp ∧
    (q.cell = p.cell → q.indexIn (p.setIndexIn hp v) = v) ∧
    (proxyEq p q = true ↔ p.cell = q.cell) := by
  refine ⟨rfl, ?_, ?_⟩
  · intro hq
    simp [Proxy.indexIn, Proxy.setIndexIn, hupd, hq]
  · simp [proxyEq]

/-- Witness for C6 at the concrete alias pair `⟨0⟩, ⟨0⟩` on the constant
heap `5`, writing `7` through the first alias. -/
theorem handle_alias_consistency_witness :
    (Proxy.clone ⟨0⟩).indexIn (fun _ => 5) = Proxy.indexIn ⟨0⟩ (fun _ => 5) ∧
    Proxy.indexIn ⟨0⟩ (Proxy.setIndexIn ⟨0⟩ (fun _ => 5) 7) = 7 ∧
    (proxyEq ⟨0⟩ ⟨0⟩ = true ↔ (⟨0⟩ : Proxy).cell = (⟨0⟩ : Proxy).cell) :=
  ⟨(handle_alias_consistency ⟨0⟩ ⟨0⟩ (fun _ => 5) 7).1,
   (handle_alias_consistency ⟨0⟩ ⟨0⟩ (fun _ => 5) 7).2.1 rfl,
   (handle_alias_consistency ⟨0⟩ ⟨0⟩ (fun _ => 5) 7).2.2⟩

/-- C9: `Proxy::remove` is an involution on the index encoding — two
removals in a row restore the original index (the map `x ↦ -3 - x` is
self-inverse), so a second `remove` silently cancels a pending removal; in
particular removing an already tombstoned handle (index `-2`) re-marks it
as pending-add (`-1`). -/
theorem remove_is_involution (s : MState) (c : Nat) :
    (removeHandle (removeHandle s c) c).heap c = s.heap c ∧
    (s.heap c = -2 → (removeHandle s c).heap c = -1) := by
  constructor
  · simp only [removeHandle, removeIdx, hupd_same]
    omega
  · intro h2
    simp only [removeHandle, removeIdx, hupd_same, h2]
    norm_num

/-- Witness for C9 on a state whose cell 0 is the tombstone `-2`. -/
theorem remove_is_involution_witness :
    (removeHandle (removeHandle sTomb 0) 0).heap 0 = sTomb.heap 0 ∧
    (removeHandle sTomb 0).heap 0 = -1 :=
  ⟨(remove_is_involution sTomb 0).1, (remove_is_involution sTomb 0).2 (by decide)⟩

/-- C4: on every trampoline invocation, a failing attribute query during
context construction makes `callback_wrapper` return `-3` to the engine
without invoking the host closure; otherwise the host closure runs and its
outcome is mapped to a status: `Ok ↦ 0` (continue), `Err ↦ -1` (abort), a
caught panic `↦ -3000` (internal bridge failure, a different code from the
abort code); a panic never unwinds past the trampoline — every outcome is
returned as a plain status. -/
theorem trampoline_status_mapping (e : CbEngine) (loc : Loc)
    (host : Where → HostResult) :
    (∀ er, cbNew e loc = Except.error er →
      callback_wrapper e loc host = (-3, false)) ∧
    (∀ w, cbNew e loc = Except.ok w →
      callback_wrapper e loc host = (hostStatus (host w), true)) ∧
    hostStatus HostResult.ok = 0 ∧ hostStatus HostResult.err = -1 ∧
    hostStatus HostResult.panicked = -3000 ∧ ((-3000 : Int) ≠ -1) := by
  refine ⟨?_, ?_, rfl, rfl, rfl, by decide⟩
  · intro er her
    unfold callback_wrapper
    rw [her]
  · intro w hw
    unfold callback_wrapper
    rw [hw]
    cases hh : host w <;> simp [hostRun, hostStatus, hh]

/-- Witness for C4: an all-failing engine makes presolve-context creation
fail and the wrapper return `-3` without the host running; an all-succeeding
engine builds the context and a panicking host maps to `-3000`. -/
theorem trampoline_status_mapping_witness :
    cbNew eCbFail Loc.presolve = Except.error (Error.FromAPI "Callback error" 40000) ∧
    callback_wrapper eCbFail Loc.presolve (fun _ => HostResult.ok) = (-3, false) ∧
    cbNew eCbOk Loc.presolve = Except.ok (Where.PreSolve 0 0 0 0 0) ∧
    callback_wrapper eCbOk Loc.presolve (fun _ => HostResult.panicked) = (-3000, true) := by
  refine ⟨rfl, ?_, rfl, ?_⟩
  · exact (trampoline_status_mapping eCbFail Loc.presolve (fun _ => HostResult.ok)).1 _ rfl
  · exact (trampoline_status_mapping eCbOk Loc.presolve
      (fun _ => HostResult.panicked)).2.1 (Where.PreSolve 0 0 0 0 0) rfl

/-- C2 (amended): `add_vars` validates that all seven parallel arrays have
equal length and, on a mismatch, fails with `InconsitentDims` returning the
state completely unchanged — no engine add primitive is issued and the
registry keeps its length.  (The batched `add_constrs` and `add_ranges`
perform no such validation; see the counterexample.) -/
theorem add_vars_length_guard (e : Engine) (s : MState) (names : List String)
    (vtypes : List VarType) (objs lbs ubs : List Float)
    (colconstrs : List (List Nat)) (colvals : List (List Float))
    (hmm : names.length ≠ vtypes.length ∨ vtypes.length ≠ objs.length ∨
      objs.length ≠ lbs.length ∨ lbs.length ≠ ubs.length ∨
      ubs.length ≠ colconstrs.length ∨ colconstrs.length ≠ colvals.length) :
    add_vars e s names vtypes objs lbs ubs colconstrs colvals
      = (s, Except.error Error.InconsitentDims) := by
  unfold add_vars
  rw [if_pos hmm]

/-- Witness for C2 at three names against two variable types. -/
theorem add_vars_length_guard_witness :
    (["a", "b", "c"].length ≠ [VarType.Binary, VarType.Binary].length ∨
      [VarType.Binary, VarType.Binary].length ≠ ([] : List Float).length ∨
      ([] : List Float).length ≠ ([] : List Float).length ∨
      ([] : List Float).length ≠ ([] : List Float).length ∨
      ([] : List Float).length ≠ ([] : List (List Nat)).length ∨
      ([] : List (List Nat)).length ≠ ([] : List (List Float)).length) ∧
    add_vars eOk mState0 ["a", "b", "c"] [VarType.Binary, VarType.Binary] [] [] [] [] []
      = (mState0, Except.error Error.InconsitentDims) :=
  ⟨by decide,
   add_vars_length_guard eOk mState0 _ _ _ _ _ _ _ (by decide)⟩

/-- Counterexample for C2 as stated: `add_constrs` with three names but only
two expressions, senses and right-hand sides does not return
`DimensionMismatch`; it succeeds, invokes the engine bulk-add primitive
(with count 3), and grows the constraint registry by three handles. -/
theorem add_constrs_no_length_guard :
    isOkB (add_constrs eOk mState0 ["a", "b", "c"] [linZero, linZero]
      [ConstrSense.Equal, ConstrSense.Equal] [0.0, 0.0]).2 = true ∧
    ECall.addConstrsBulk 3 ∈ (add_constrs eOk mState0 ["a", "b", "c"]
      [linZero, linZero] [ConstrSense.Equal, ConstrSense.Equal] [0.0, 0.0]).1.trace ∧
    (add_constrs eOk mState0 ["a", "b", "c"] [linZero, linZero]
      [ConstrSense.Equal, ConstrSense.Equal] [0.0, 0.0]).1.constrs.length = 3 := by
  refine ⟨rfl, by decide, rfl⟩

/-- C10: querying or setting a per-element attribute through a handle whose
index is negative — pending add (`-1`), tombstone (`-2`) or pending removal
(`≤ -3`) — fails with `InconsitentDims` with the state (hence the engine
trace) unchanged, and the list variants reject any negative index the same
way; the engine attribute call is issued only when every supplied index is
non-negative. -/
theorem negative_index_no_engine (e : Engine) (s : MState) (p : Proxy) (i : Int)
    (ind : List Int) (nvals : Nat) :
    (i < 0 → get_element e s i = (s, Except.error Error.InconsitentDims)) ∧
    (i < 0 → set_element e s i = (s, Except.error Error.InconsitentDims)) ∧
    (p.indexIn s.heap < 0 →
      proxy_get e s p = (s, Except.error Error.InconsitentDims) ∧
      proxy_set e s p = (s, Except.error Error.InconsitentDims)) ∧
    (i ∈ ind → i < 0 →
      get_list e s ind = (s, Except.error Error.InconsitentDims) ∧
      (ind.length = nvals →
        set_list e s ind nvals = (s, Except.error Error.InconsitentDims))) ∧
    ((get_list e s ind).1.trace ≠ s.trace → ∀ j ∈ ind, 0 ≤ j) := by
  refine ⟨?_, ?_, ?_, ?_, ?_⟩
  · intro hi
    unfold get_element
    rw [if_pos hi]
  · intro hi
    unfold set_element
    rw [if_pos hi]
  · intro hi
    constructor
    · unfold proxy_get get_element
      rw [if_pos hi]
    · unfold proxy_set set_element
      rw [if_pos hi]
  · intro hmem hneg
    constructor
    · unfold get_list
      rw [checkNonneg_neg hmem hneg]
    · intro hlen
      unfold set_list
      rw [if_neg (by omega), checkNonneg_neg hmem hneg]
  · intro htr
    unfold get_list at htr
    rcases ho : checkNonneg ind with _ | buf
    · rw [ho] at htr
      exact absurd rfl htr
    · exact checkNonneg_some ho

/-- Witness for C10 on a tombstoned handle (all cells at `-2`) and the index
list `[-1]`. -/
theorem negative_index_no_engine_witness :
    get_element eOk sTomb (-1) = (sTomb, Except.error Error.InconsitentDims) ∧
    (proxy_get eOk sTomb ⟨0⟩ = (sTomb, Except.error Error.InconsitentDims) ∧
      proxy_set eOk sTomb ⟨0⟩ = (sTomb, Except.error Error.InconsitentDims)) ∧
    get_list eOk sTomb [-1] = (sTomb, Except.error Error.InconsitentDims) :=
  ⟨(negative_index_no_engine eOk sTomb ⟨0⟩ (-1) [-1] 1).1 (by decide),
   (negative_index_no_engine eOk sTomb ⟨0⟩ (-1) [-1] 1).2.2.1 (by decide),
   ((negative_index_no_engine eOk sTomb ⟨0⟩ (-1) [-1] 1).2.2.2.1 (by decide)
      (by decide)).1⟩

/-- C5: if `update()` succeeds and is called again with no intervening
mutation, the second call issues no engine add or delete primitive and
exactly the single commit (`GRBupdatemodel`) call — its whole trace
contribution is `[updateModel]` — and leaves every handle's index and all
four registries unchanged: the renumbering pass is a fixed point. -/
theorem update_idempotent (e : Engine) (s s1 : MState)
    (h : update e s = (s1, Except.ok ())) :
    (update e s1).1.trace = s1.trace ++ [ECall.updateModel] ∧
    (∀ x, (update e s1).1.heap x = s1.heap x) ∧
    (update e s1).1.vars = s1.vars ∧ (update e s1).1.constrs = s1.constrs ∧
    (update e s1).1.qconstrs = s1.qconstrs ∧ (update e s1).1.sos = s1.sos :=
  update_canon_next e s1 (update_ok_canon h)

/-- Witness for C5: the empty model updated twice. -/
theorem update_idempotent_witness :
    (update eOk (update eOk mState0).1).1.trace
        = (update eOk mState0).1.trace ++ [ECall.updateModel] ∧
    (update eOk (update eOk mState0).1).1.vars = (update eOk mState0).1.vars :=
  ⟨(update_idempotent eOk mState0 (update eOk mState0).1 rfl).1,
   (update_idempotent eOk mState0 (update eOk mState0).1 rfl).2.2.1⟩

/-- C8 (amended): `get_runtime` rejects exactly the `Polling` location,
returning the fixed `FromAPI "bad call in callback" 40001` error with no
engine query; at every other location — including locations outside
`MIPSol` / `MIPNode` — the query is forwarded to the engine as a single
`GRBcbget(where, RUNTIME)` call, and any error produced there is the
engine-error code `40000`, never the bad-call code. -/
theorem get_runtime_polling_only (e : CbEngine) (w : Where) :
    (w = Where.Polling → get_runtime e w =
      (Except.error (Error.FromAPI "bad call in callback" 40001), [])) ∧
    (w ≠ Where.Polling →
      (get_runtime e w).2 = [(whereCode w, RUNTIME)] ∧
      ∀ msg code, (get_runtime e w).1 = Except.error (Error.FromAPI msg code) →
        code = 40000) := by
  constructor
  · intro hw
    subst hw
    rfl
  · intro hw
    have hfwd : get_runtime e w = runtimeFwd e (whereCode w) := by
      cases w with
      | Polling => exact absurd rfl hw
      | PreSolve a b c d f => rfl
      | Simplex a b c d f => rfl
      | MIP a b c d f g i => rfl
      | MIPSol a b c d f => rfl
      | MIPNode a b c d f => rfl
      | Message a => rfl
      | Barrier a b c d f g => rfl
    rw [hfwd]
    unfold runtimeFwd
    split
    · exact ⟨rfl, fun msg code hx => absurd hx (by simp)⟩
    · refine ⟨rfl, fun msg code hx => ?_⟩
      injection hx with h1
      injection h1 with _ h2
      omega

/-- Witness for C8: the rejected `Polling` case and the forwarded `Message`
case on a concrete engine. -/
theorem get_runtime_polling_only_witness :
    get_runtime eCbOk Where.Polling
      = (Except.error (Error.FromAPI "bad call in callback" 40001), []) ∧
    (get_runtime eCbOk (Where.Message "m")).2
      = [(whereCode (Where.Message "m"), RUNTIME)] :=
  ⟨(get_runtime_polling_only eCbOk Where.Polling).1 rfl,
   ((get_runtime_polling_only eCbOk (Where.Message "m")).2
      (fun hx => Where.noConfusion hx)).1⟩

/-- Counterexample for C8 as stated: at the `Message` location — outside
both `MIPSol` and `MIPNode` — `get_runtime` does not return the bad-call
error; it issues the engine query `(MESSAGE, RUNTIME)` and succeeds. -/
theorem get_runtime_forwards_outside_polling :
    (get_runtime eCbOk (Where.Message "m")).2 = [(6, 6002)] ∧
    isOkB (get_runtime eCbOk (Where.Message "m")).1 = true := by
  exact ⟨rfl, rfl⟩

/-- C7 (amended): when the engine accepts `GRBaddvar`, the new handle's
initial index is the registry's previous length `N` when the cached
update-mode value is non-zero, and `-1` (pending) when the cached value is
zero — the value the source's own comment labels as the mode in which all
changes take effect immediately.  The mode is queried from the environment
only when the cache is empty (one `queryUpdateMode` trace entry, after
which the value is cached); with a warm cache no query is issued. -/
theorem add_var_initial_index (e : Engine) (s : MState) (name : String)
    (vt : VarType) (obj lb ub : Float) (m : Int)
    (hst : e.statusOf ECall.addVarCall = 0) :
    (s.updatemode = some m →
      add_var e s name vt obj lb ub [] [] =
        ({ s with
            heap := hupd s.heap s.nextCell (if m ≠ 0 then (s.vars.length : Int) else -1)
            vars := s.vars ++ [s.nextCell]
            nextCell := s.nextCell + 1
            trace := s.trace ++ [ECall.addVarCall] }, Except.ok s.nextCell)) ∧
    (s.updatemode = none → e.updateModeResult = Except.ok m →
      add_var e s name vt obj lb ub [] [] =
        ({ s with
            heap := hupd s.heap s.nextCell (if m ≠ 0 then (s.vars.length : Int) else -1)
            vars := s.vars ++ [s.nextCell]
            nextCell := s.nextCell + 1
            updatemode := some m
            trace := s.trace ++ [ECall.addVarCall, ECall.queryUpdateMode] },
          Except.ok s.nextCell)) := by
  have happ : apiCall e s ECall.addVarCall
      = ({ s with trace := s.trace ++ [ECall.addVarCall] }, Except.ok ()) := by
    unfold apiCall
    rw [if_pos hst]
  constructor
  · intro hcache
    unfold add_var
    rw [if_neg (by simp)]
    simp only [colIndices, happ, get_update_mode, hcache]
  · intro hcache hq
    unfold add_var
    rw [if_neg (by simp)]
    simp only [colIndices, happ, get_update_mode, hcache, hq]
    simp [List.append_assoc]

/-- Witness for C7 (amended) with an empty cache, mode value 0 and an
accepting engine: the handle starts at `-1` and the mode query is cached. -/
theorem add_var_initial_index_witness :
    eOk.statusOf ECall.addVarCall = 0 ∧
    add_var eOk mState0 "x" VarType.Binary 0.0 0.0 1.0 [] [] =
      ({ mState0 with
          heap := hupd mState0.heap mState0.nextCell
            (if (0 : Int) ≠ 0 then (mState0.vars.length : Int) else -1)
          vars := mState0.vars ++ [mState0.nextCell]
          nextCell := mState0.nextCell + 1
          updatemode := some 0
          trace := mState0.trace ++ [ECall.addVarCall, ECall.queryUpdateMode] },
        Except.ok mState0.nextCell) :=
  ⟨rfl, (add_var_initial_index eOk mState0 "x" VarType.Binary 0.0 0.0 1.0 0
      rfl).2 rfl rfl⟩

/-- Counterexample for C7 as stated: with the cached update-mode value `0`
(labelled "all changes are immediately affects" by the source's
`get_update_mode` comment), `add_var` on the empty registry assigns the new
handle index `-1`, not the registry's previous length `0` — the direction of
the mode test is the reverse of the claim. -/
theorem add_var_immediate_mode_counterexample :
    eOk.updateModeResult = Except.ok 0 ∧
    mState0.vars.length = 0 ∧
    (add_var eOk mState0 "x" VarType.Binary 0.0 0.0 1.0 [] []).1.heap 0 = -1 ∧
    ((-1 : Int) ≠ 0) :=
  ⟨rfl, rfl, by decide, by decide⟩

theorem rearrange_not_mem (hp : Nat → Int) (vec : List Nat) (x : Nat)
    (hx : x ∉ vec) : rearrange hp vec x = hp x := by
  unfold rearrange
  apply writeAll_not_mem
  rw [idxPairs_snd]
  exact hx

theorem update_tomb_trace (e : Engine) (t : MState) (h : Nat)
    (hv : ∀ c ∈ t.vars, -1 ≤ t.heap c ∨ t.heap c = -2)
    (hc3 : ∀ c ∈ t.constrs, -1 ≤ t.heap c)
    (hq4 : ∀ c ∈ t.qconstrs, -1 ≤ t.heap c)
    (hs5 : ∀ c ∈ t.sos, -1 ≤ t.heap c)
    (hth : t.heap h = -2)
    (h6 : h ∉ t.constrs) (h7 : h ∉ t.qconstrs) (h8 : h ∉ t.sos) :
    (update e t).1.trace = t.trace ++ [ECall.updateModel] ∧
    (update e t).1.heap h = -2 := by
  have hrv : remove_items t.heap t.vars
      = (t.heap, t.vars.filter (fun c => decide (-1 ≤ t.heap c)), []) :=
    remove_items_tomb _ _ hv
  have hrc : remove_items t.heap t.constrs = (t.heap, t.constrs, []) :=
    remove_items_id _ _ hc3
  have hrq : remove_items t.heap t.qconstrs = (t.heap, t.qconstrs, []) :=
    remove_items_id _ _ hq4
  have hrs : remove_items t.heap t.sos = (t.heap, t.sos, []) :=
    remove_items_id _ _ hs5
  have hnv : h ∉ t.vars.filter (fun c => decide (-1 ≤ t.heap c)) := by
    intro hmem
    have hdec := (List.mem_filter.mp hmem).2
    rw [hth] at hdec
    simp at hdec
  have hfinal :
      rearrange (rearrange (rearrange (rearrange t.heap
        (t.vars.filter (fun c => decide (-1 ≤ t.heap c)))) t.constrs) t.qconstrs) t.sos h
      = -2 := by
    rw [rearrange_not_mem _ _ _ h8, rearrange_not_mem _ _ _ h7,
      rearrange_not_mem _ _ _ h6, rearrange_not_mem _ _ _ hnv, hth]
  unfold update
  by_cases hst : e.statusOf ECall.updateModel = 0 <;>
    simp [estep, apiCall, hst, hrv, hrc, hrq, hrs, hfinal, hth]

/-- C3: removing a handle whose index is `-1` (created but never flushed)
tombstones its cell directly to `-2`; every entry of the variable deletion
batch computed by the following `update()` stems from a cell other than this
one (in any state), and when no other variable is doomed the batch is empty,
so the variable-delete primitive is not invoked at all — the reconciling
`update()` issues exactly the single commit call — and after the update the
cell still holds `-2`. -/
theorem pending_remove_never_deleted (e : Engine) (s : MState) (h : Nat)
    (H1 : s.heap h = -1)
    (H2 : ∀ c ∈ s.vars, -1 ≤ s.heap c)
    (H3 : ∀ c ∈ s.constrs, -1 ≤ s.heap c)
    (H4 : ∀ c ∈ s.qconstrs, -1 ≤ s.heap c)
    (H5 : ∀ c ∈ s.sos, -1 ≤ s.heap c)
    (H6 : h ∉ s.constrs) (H7 : h ∉ s.qconstrs) (H8 : h ∉ s.sos) :
    (removeHandle s h).heap h = -2 ∧
    (remove_items (removeHandle s h).heap s.vars).2.2 = [] ∧
    (∀ s' : MState, s'.heap h = -1 →
      ∀ i ∈ (remove_items (removeHandle s' h).heap s'.vars).2.2,
        ∃ c, c ∈ s'.vars ∧ c ≠ h ∧ i = -3 - (removeHandle s' h).heap c) ∧
    (update e (removeHandle s h)).1.trace
      = (removeHandle s h).trace ++ [ECall.updateModel] ∧
    (update e (removeHandle s h)).1.heap h = -2 := by
  have hs1 : (removeHandle s h).heap = hupd s.heap h (-2) := by
    unfold removeHandle
    dsimp only
    rw [H1]
    norm_num [removeIdx]
  have hval : (removeHandle s h).heap h = -2 := by
    rw [hs1]
    exact hupd_same _ _ _
  have hoff : ∀ c, c ≠ h → (removeHandle s h).heap c = s.heap c := by
    intro c hc
    rw [hs1, hupd_other _ _ _ _ hc]
  have hvars : ∀ c ∈ s.vars,
      -1 ≤ (removeHandle s h).heap c ∨ (removeHandle s h).heap c = -2 := by
    intro c hc
    by_cases hch : c = h
    · subst hch
      right
      exact hval
    · left
      rw [hoff c hch]
      exact H2 c hc
  have hbatch : (remove_items (removeHandle s h).heap s.vars).2.2 = [] := by
    rw [remove_items_tomb _ _ hvars]
  refine ⟨hval, hbatch, ?_, ?_⟩
  · intro s' h1' i hi
    obtain ⟨c, hcmem, hclt, hieq⟩ := remove_items_batch_mem _ _ i hi
    refine ⟨c, hcmem, ?_, hieq⟩
    intro hch
    subst hch
    have hZ : (removeHandle s' c).heap c = -2 := by
      unfold removeHandle
      dsimp only
      rw [h1']
      norm_num [removeIdx, hupd_same]
    omega
  · exact update_tomb_trace e (removeHandle s h) h hvars
      (fun c hc => by
        rw [hoff c (fun hch => H6 (hch ▸ hc))]
        exact H3 c hc)
      (fun c hc => by
        rw [hoff c (fun hch => H7 (hch ▸ hc))]
        exact H4 c hc)
      (fun c hc => by
        rw [hoff c (fun hch => H8 (hch ▸ hc))]
        exact H5 c hc)
      hval H6 H7 H8

/-- Witness for C3 on a state with a pending-add cell 0 and a live cell 1. -/
theorem pending_remove_never_deleted_witness :
    (removeHandle sC3 0).heap 0 = -2 ∧
    (remove_items (removeHandle sC3 0).heap sC3.vars).2.2 = [] ∧
    (update eOk (removeHandle sC3 0)).1.trace
      = (removeHandle sC3 0).trace ++ [ECall.updateModel] ∧
    (update eOk (removeHandle sC3 0)).1.heap 0 = -2 :=
  ⟨(pending_remove_never_deleted eOk sC3 0 (by decide) (by decide) (by decide)
      (by decide) (by decide) (by decide) (by decide) (by decide)).1,
   (pending_remove_never_deleted eOk sC3 0 (by decide) (by decide) (by decide)
      (by decide) (by decide) (by decide) (by decide) (by decide)).2.1,
   (pending_remove_never_deleted eOk sC3 0 (by decide) (by decide) (by decide)
      (by decide) (by decide) (by decide) (by decide) (by decide)).2.2.2.1,
   (pending_remove_never_deleted eOk sC3 0 (by decide) (by decide) (by decide)
      (by decide) (by decide) (by decide) (by decide) (by decide)).2.2.2.2⟩

end RustGurobi
